import Mathlib

/-!
Formal model of `mml.cpp`, a command-line MML (music macro language) player.

The development shallowly embeds the two core subsystems of the program and
the render loop that drives them:

* the bandlimited square wavetable bank (`SquareWavetable`): only its
  threshold phase rates (`topPhaseRate`) and the mip-level selection
  (`GetTable`) are modelled; the sample data of the tables is produced by
  `sinf`-based floating-point synthesis and is abstracted behind a lookup
  parameter `lk` in the renderer,
* the sequencer (`MMLPlayer`): `Load`, `ReadNumber`, `Tick`, `IsDone`,
  modelled over `Int`/`Nat` with the song buffer as a `List Char`
  terminated by an appended sentinel, exactly as `Load` builds it,
* the renderer `GenerateSongSquareWave`: the per-tick loop that runs the
  sequencer until `IsDone` and emits `TICK_LENGTH` samples per tick.

Machine integers are modelled by `Nat`/`Int` with explicit `% 2 ^ 32`
where 32-bit wrap-around matters.  C++ exceptions (`std::domain_error`)
are modelled with `Except MMLError`; the out-of-bounds `std::array`
access in the note command (undefined behaviour in C++) is modelled as
the error value `MMLError.indexOutOfRange`.

The floating-point note-frequency table built by the `MMLPlayer`
constructor is kept abstract as a parameter `noteToPhaseRate : Nat → Nat`
(its values never influence the control flow of the sequencer); the
floating-point threshold computation of `SquareWavetable::Generate` is
modelled in exact integer arithmetic (see `topPhaseRate`).
-/

set_option linter.unusedVariables false
set_option linter.unnecessarySeqFocus false

/-- `constexpr int NUM_OCTAVES = 3`. -/
def NUM_OCTAVES : Int := 3

/-- `constexpr int NOTES_PER_OCTAVE = 12`. -/
def NOTES_PER_OCTAVE : Int := 12

/-- `constexpr int NOTE_A_440 = 21`. -/
def NOTE_A_440 : Int := 21

/-- `constexpr int SAMPLE_RATE = 44100`. -/
def SAMPLE_RATE : Nat := 44100

/-- `constexpr int TICK_LENGTH = 2700`. -/
def TICK_LENGTH : Nat := 2700

/-- `constexpr size_t WAVETABLE_NUM_TABLES = 8`. -/
def WAVETABLE_NUM_TABLES : Nat := 8

/-- `constexpr float WAVETABLE_BASE_FREQ = 40.0f` (an exact integer). -/
def WAVETABLE_BASE_FREQ : Nat := 40

/-- The value of the C constant `UINT32_MAX`. -/
def UINT32_MAX : Nat := 4294967295

/-- Threshold phase rate of mip level `k`, from `SquareWavetable::Generate`:
`topPhaseRate[tableNum] = (uint32_t)(UINT32_MAX * 2 * frequency / sampleRate)`
where `frequency` starts at `WAVETABLE_BASE_FREQ` and doubles per level, so at
level `k` it is `40 * 2 ^ k` (exactly representable in `float`).
`UINT32_MAX * 2` is unsigned 32-bit arithmetic and wraps to `2 ^ 32 - 2`,
hence the first `% 2 ^ 32`; the final `% 2 ^ 32` models the `uint32_t` cast.
The `float` multiplication and division are modelled as exact integer
arithmetic with truncation (the cast truncates toward zero). -/
def topPhaseRate (sampleRate : Nat) (k : Nat) : Nat :=
  (UINT32_MAX * 2) % 2 ^ 32 * (WAVETABLE_BASE_FREQ * 2 ^ k) / sampleRate % 2 ^ 32

/-- The `topPhaseRate` member array of `SquareWavetable`, as a list of
`WAVETABLE_NUM_TABLES` thresholds in level order. -/
def topPhaseRateList (sampleRate : Nat) : List Nat :=
  (List.range WAVETABLE_NUM_TABLES).map (topPhaseRate sampleRate)

/-- Index returned by `std::lower_bound` on a range of `Nat`s: the first
position whose element is not `< v` (the length of the range if every element
is `< v`).  On a partitioned (e.g. sorted) range this is exactly the
postcondition of `std::lower_bound`. -/
def lowerBoundIdx (l : List Nat) (v : Nat) : Nat :=
  match l with
  | [] => 0
  | a :: l => if a < v then lowerBoundIdx l v + 1 else 0

/-- `SquareWavetable::GetTable`: `std::distance(topPhaseRate.begin(),
std::lower_bound(topPhaseRate.begin(), topPhaseRate.end() - 1, phaseRate))`.
The search range excludes the last element (`end() - 1`), so the result is
at most `WAVETABLE_NUM_TABLES - 1`. -/
def GetTable (sampleRate : Nat) (phaseRate : Nat) : Nat :=
  lowerBoundIdx (topPhaseRateList sampleRate).dropLast phaseRate

/-- Errors raised by the sequencer: `domainError` models a thrown
`std::domain_error`; `indexOutOfRange` models the (undefined-behaviour)
out-of-bounds access `noteToPhaseRate[idx]` with `idx` outside
`[0, NUM_OCTAVES * NOTES_PER_OCTAVE)`. -/
inductive MMLError where
  | domainError (msg : String)
  | indexOutOfRange (idx : Int)
deriving DecidableEq

/-- The null character used by `Load` as the end-of-song sentinel. -/
def NUL : Char := Char.ofNat 0

/-- `const std::array<int, 7> letterToNoteNumber = { 9, 11, 0, 2, 4, 5, 7 }`. -/
def letterToNoteNumber : List Int := [9, 11, 0, 2, 4, 5, 7]

/-- `const std::array<int, 10> lengthNumberToTickCount =
{ 1, 2, 3, 4, 6, 8, 12, 16, 24, 32 }`. -/
def lengthNumberToTickCount : List Int := [1, 2, 3, 4, 6, 8, 12, 16, 24, 32]

/-- Sequencer state: the fields of class `MMLPlayer` except the
`noteToPhaseRate` member array, which is passed to `Tick` as a parameter.
`song` is the uppercase-folded text with the sentinel appended by `Load`;
`position = -1` is the terminal sentinel value set when the end of the song
has been consumed. -/
structure MMLState where
  song : List Char
  position : Int
  octave : Int
  output : Nat
  tempo : Int
  counts : Int
deriving DecidableEq

/-- `MMLPlayer::Load`: uppercase the song text, append the terminating
null character, and reset the playback state (`octave = 1`, `position = 0`,
`output = 0`, `counts = 0`, `tempo = 4`). -/
def Load (songstr : List Char) : MMLState :=
  { song := songstr.map Char.toUpper ++ [NUL]
    position := 0
    octave := 1
    output := 0
    tempo := 4
    counts := 0 }

/-- `MMLPlayer::IsDone`: `position < 0`. -/
def IsDone (s : MMLState) : Bool := decide (s.position < 0)

/-- `MMLPlayer::ReadNumber` over the unread suffix of the song:
`char next = song[position++] - '0'; if (next >= min && next <= max) return
next; else throw std::domain_error(errorstr);`.  Reading at the end of the
buffer yields the sentinel (`headD` with default `NUL`), whose digit value
`-48` fails every range check, exactly as the real buffer read of the
appended `'\0'` does. -/
def ReadNumber (rest : List Char) (min max : Int) (errorstr : String) :
    Except MMLError (Int × List Char) :=
  let next : Int := (rest.headD NUL).toNat - 48
  if min ≤ next ∧ next ≤ max then .ok (next, rest.tail)
  else .error (.domainError errorstr)

/-- The optional sharp/flat modifier after a note letter:
`next = song[position++]; switch (next) { case '#': case '+': pitch++;
break; case '-': pitch--; break; default: position--; }` — the default
branch un-consumes the character. -/
def applyModifier (pitch : Int) (rest : List Char) : Int × List Char :=
  match rest with
  | '#' :: r => (pitch + 1, r)
  | '+' :: r => (pitch + 1, r)
  | '-' :: r => (pitch - 1, r)
  | _ => (pitch, rest)

/-- The pitch boundary nudge in the note command:
`if (pitch >= NUM_OCTAVES * NOTES_PER_OCTAVE) pitch--; else if (pitch < 0)
pitch++;`. -/
def clampPitch (pitch : Int) : Int :=
  if pitch ≥ NUM_OCTAVES * NOTES_PER_OCTAVE then pitch - 1
  else if pitch < 0 then pitch + 1
  else pitch

/-- Access `noteToPhaseRate[idx]` on the member array of size
`NUM_OCTAVES * NOTES_PER_OCTAVE = 36`; an out-of-range index is undefined
behaviour in the C++ and surfaces here as `MMLError.indexOutOfRange`. -/
def noteTableGet (noteToPhaseRate : Nat → Nat) (idx : Int) : Except MMLError Nat :=
  if 0 ≤ idx ∧ idx < NUM_OCTAVES * NOTES_PER_OCTAVE then .ok (noteToPhaseRate idx.toNat)
  else .error (.indexOutOfRange idx)

/-- Result of one run of the `while (!done)` scan loop inside
`MMLPlayer::Tick`: the updated octave/tempo, the `counts` and `output`
set by a rest or note command, the unread suffix of the song after the
consumed characters, and whether the end-of-song sentinel was consumed
(`finished`, in which case `output = 0` and `counts` is not meaningful —
`Tick` leaves the counts field unchanged in that case). -/
structure ScanRes where
  octave : Int
  tempo : Int
  counts : Int
  output : Nat
  rest : List Char
  finished : Bool
deriving DecidableEq

/-- One iteration of the `while (!done)` command dispatch loop inside
`MMLPlayer::Tick`, expressed over the unread suffix of the song buffer
(position bookkeeping is recovered from the length of the returned
suffix).  The result is either a completed scan — a rest/note event or
the end-of-song sentinel (`Sum.inl`) — or the updated octave/tempo and
the remaining characters for the next loop iteration (`Sum.inr`).
Reaching `[]` cannot happen from a loaded state (the appended sentinel
stops the scan first) and is treated as reading the sentinel. -/
def scanStep (noteToPhaseRate : Nat → Nat) (octave tempo : Int) :
    List Char → Except MMLError (ScanRes ⊕ Int × Int × List Char)
  | [] => .ok (.inl ⟨octave, tempo, 0, 0, [], true⟩)
  | c :: rest =>
    if c = NUL then
      -- case '\0': position = -1; output = 0; done = true
      .ok (.inl ⟨octave, tempo, 0, 0, rest, true⟩)
    else if c = '>' then
      -- case '>': if (octave < NUM_OCTAVES - 1) octave++
      .ok (.inr (if octave < NUM_OCTAVES - 1 then octave + 1 else octave, tempo, rest))
    else if c = '<' then
      -- case '<': if (octave > 0) octave--
      .ok (.inr (if octave > 0 then octave - 1 else octave, tempo, rest))
    else if c = 'O' then
      -- case 'O': octave = ReadNumber(0, NUM_OCTAVES - 1, ...)
      match ReadNumber rest 0 (NUM_OCTAVES - 1) "Invalid O command in song string" with
      | .error e => .error e
      | .ok (n, rest2) => .ok (.inr (n, tempo, rest2))
    else if c = 'T' then
      -- case 'T': tempo = ReadNumber(0, 9, ...)
      match ReadNumber rest 0 9 "Invalid T command in song string" with
      | .error e => .error e
      | .ok (n, rest2) => .ok (.inr (octave, n, rest2))
    else if c = ' ' ∨ c = '\n' ∨ c = '\r' ∨ c = '\t' then
      -- whitespace: skip
      .ok (.inr (octave, tempo, rest))
    else if c = 'R' then
      -- case 'R': counts = (tempo + 1) * lengthNumberToTickCount[ReadNumber(0, 9, ...)]
      match ReadNumber rest 0 9 "Invalid R command in song string" with
      | .error e => .error e
      | .ok (n, rest2) =>
        .ok (.inl ⟨octave, tempo, (tempo + 1) * lengthNumberToTickCount.getD n.toNat 0, 0,
          rest2, false⟩)
    else if 'A' ≤ c ∧ c ≤ 'G' then
      -- note command: pitch from letter, optional modifier, boundary nudge,
      -- duration digit, then output = noteToPhaseRate[pitch + octave * 12]
      let pitch0 : Int := letterToNoteNumber.getD (c.toNat - 65) 0
      let pm := applyModifier pitch0 rest
      let pitch := clampPitch pm.1
      match ReadNumber pm.2 0 9 "Inavlid count number in note command in song string" with
      | .error e => .error e
      | .ok (n, rest2) =>
        match noteTableGet noteToPhaseRate (pitch + octave * 12) with
        | .error e => .error e
        | .ok rate =>
          .ok (.inl ⟨octave, tempo, (tempo + 1) * lengthNumberToTickCount.getD n.toNat 0, rate,
            rest2, false⟩)
    else .error (.domainError "Invalid character in song string")

/-- The `while (!done)` loop of `MMLPlayer::Tick`: iterate `scanStep`
until a completed scan, with explicit fuel.  Every continued iteration
consumes at least one character, so the fuel chosen by `tickScan` always
suffices; the fuel-exhaustion case is unreachable and modelled as reading
the sentinel. -/
def scanLoop (noteToPhaseRate : Nat → Nat) :
    Nat → Int → Int → List Char → Except MMLError ScanRes
  | 0, octave, tempo, _ => .ok ⟨octave, tempo, 0, 0, [], true⟩
  | fuel + 1, octave, tempo, l =>
    match scanStep noteToPhaseRate octave tempo l with
    | .error e => .error e
    | .ok (.inl r) => .ok r
    | .ok (.inr (octave2, tempo2, rest)) => scanLoop noteToPhaseRate fuel octave2 tempo2 rest

/-- The complete command scan of one `MMLPlayer::Tick` call from the
current position, over the unread suffix of the song. -/
def tickScan (noteToPhaseRate : Nat → Nat) (octave tempo : Int) (l : List Char) :
    Except MMLError ScanRes :=
  scanLoop noteToPhaseRate (l.length + 1) octave tempo l

/-- `MMLPlayer::Tick`.  First `--counts`; if still positive, keep emitting
the current `output`.  Then, if the terminal sentinel was already consumed
(`position < 0`), emit `0`.  Otherwise run the command scan from the
current position; on a rest/note it installs the new `counts`/`output`,
on the end-of-song sentinel it sets `position = -1` and `output = 0`
(leaving `counts` unchanged).  The new position is the index of the first
unread character, recovered as `song.length - rest.length`. -/
def Tick (noteToPhaseRate : Nat → Nat) (s : MMLState) :
    Except MMLError (Nat × MMLState) :=
  let s1 : MMLState := { s with counts := s.counts - 1 }
  if s1.counts > 0 then .ok (s1.output, s1)
  else if s1.position < 0 then .ok (0, s1)
  else
    match tickScan noteToPhaseRate s1.octave s1.tempo (s1.song.drop s1.position.toNat) with
    | .error e => .error e
    | .ok r =>
      let s2 : MMLState :=
        { song := s1.song
          position := if r.finished then -1 else (s1.song.length : Int) - (r.rest.length : Int)
          octave := r.octave
          tempo := r.tempo
          counts := if r.finished then s1.counts else r.counts
          output := r.output }
      .ok (r.output, s2)

/-- One tick's worth of non-silent samples in `GenerateSongSquareWave`:
`for (smp = 0; smp < TICK_LENGTH; smp++) { data.push_back((int16_t)(16384 *
wavetable.Lookup(phase, tableNum))); phase += phaseRate; }`.
`lk phase tableNum` abstracts the floating-point expression
`(int16_t)(16384 * wavetable.Lookup(phase, tableNum))`; the 32-bit phase
accumulator wraps modulo `2 ^ 32`.  Returns the emitted samples and the
final phase. -/
def tickBlock (lk : Nat → Nat → Int) (tableNum : Nat) :
    Nat → Nat → Nat → List Int × Nat
  | 0, phase, _ => ([], phase)
  | n + 1, phase, phaseRate =>
    let sample := lk phase tableNum
    let rest := tickBlock lk tableNum n ((phase + phaseRate) % 2 ^ 32) phaseRate
    (sample :: rest.1, rest.2)

/-- The render loop of `GenerateSongSquareWave`:
`for (i = 0; !player.IsDone(); i++) { phaseRate = player.Tick(); ... }`,
with an explicit fuel bound (`none` only when the fuel runs out; the
development proves the fuel chosen by `GenerateSongSquareWave` always
suffices for loaded states).  A tick with `phaseRate == 0` appends
`TICK_LENGTH` zero samples and leaves the phase accumulator untouched;
otherwise the mip level is selected once per tick and `TICK_LENGTH`
samples are produced by `tickBlock`.  A thrown sequencer error propagates
out, discarding the locally accumulated samples, exactly as the C++
exception unwinds past the local `data` vector. -/
def songLoop (lk : Nat → Nat → Int) (noteToPhaseRate : Nat → Nat) :
    Nat → Nat → MMLState → Option (Except MMLError (List Int))
  | 0, _, _ => none
  | fuel + 1, phase, s =>
    if IsDone s then some (.ok [])
    else
      match Tick noteToPhaseRate s with
      | .error e => some (.error e)
      | .ok (phaseRate, s') =>
        let tableNum := GetTable SAMPLE_RATE phaseRate
        if phaseRate = 0 then
          (songLoop lk noteToPhaseRate fuel phase s').map
            (fun r => r.map (fun tail => List.replicate TICK_LENGTH 0 ++ tail))
        else
          let bp := tickBlock lk tableNum TICK_LENGTH phase phaseRate
          (songLoop lk noteToPhaseRate fuel bp.2 s').map
            (fun r => r.map (fun tail => bp.1 ++ tail))

/-- Fuel that always suffices for the render loop from state `s`: one unit
per remaining sustain tick plus `322` units per unread character (each
parsed rest/note consumes at least two characters and installs a count of
at most `(9 + 1) * 32 = 320`), plus slack for the terminal tick. -/
def fuelFor (s : MMLState) : Nat :=
  s.counts.toNat + 322 * (s.song.length + 1 - s.position.toNat) + 2

/-- `GenerateSongSquareWave(songstr, len)`.  The wavetable bank and the
player are constructed locally from `SAMPLE_RATE`; their floating-point
content is abstracted by the parameters `lk` (the Lookup-and-quantize
expression) and `noteToPhaseRate` (the note table built by the `MMLPlayer`
constructor).  Returns the PCM sample list, or the propagated sequencer
error. -/
def GenerateSongSquareWave (lk : Nat → Nat → Int) (noteToPhaseRate : Nat → Nat)
    (songstr : List Char) : Option (Except MMLError (List Int)) :=
  songLoop lk noteToPhaseRate (fuelFor (Load songstr)) 0 (Load songstr)

/-- The sequence of phase rates obtained by calling `Tick` until `IsDone`,
with fuel, mirroring the control flow of `songLoop` at the sequencer level. -/
def tickStream (noteToPhaseRate : Nat → Nat) :
    Nat → MMLState → Option (Except MMLError (List Nat))
  | 0, _ => none
  | fuel + 1, s =>
    if IsDone s then some (.ok [])
    else
      match Tick noteToPhaseRate s with
      | .error e => some (.error e)
      | .ok (phaseRate, s') =>
        (tickStream noteToPhaseRate fuel s').map (fun r => r.map (fun tail => phaseRate :: tail))

/-- The per-tick phase rates the render loop of `GenerateSongSquareWave`
obtains from the sequencer for a given song text. -/
def songTicks (noteToPhaseRate : Nat → Nat) (songstr : List Char) :
    Option (Except MMLError (List Nat)) :=
  tickStream noteToPhaseRate (fuelFor (Load songstr)) (Load songstr)

/-- Samples produced by the render loop for a given sequence of per-tick
phase rates, starting from a given phase accumulator value. -/
def renderTicks (lk : Nat → Nat → Int) (phase : Nat) : List Nat → List Int
  | [] => []
  | r :: ts =>
    if r = 0 then List.replicate TICK_LENGTH 0 ++ renderTicks lk phase ts
    else
      let bp := tickBlock lk (GetTable SAMPLE_RATE r) TICK_LENGTH phase r
      bp.1 ++ renderTicks lk bp.2 ts

/-- Event extraction: repeatedly run the command scan, collecting the
`(phase rate, tick count)` pair of every rest/note of the song until the
end-of-song sentinel, with fuel (`none` only on fuel exhaustion; one unit
of fuel per event always suffices since every event consumes characters). -/
def eventsAux (noteToPhaseRate : Nat → Nat) :
    Nat → Int → Int → List Char → Option (Except MMLError (List (Nat × Nat)))
  | 0, _, _, _ => none
  | n + 1, octave, tempo, l =>
    match tickScan noteToPhaseRate octave tempo l with
    | .error e => some (.error e)
    | .ok r =>
      if r.finished then some (.ok [])
      else
        (eventsAux noteToPhaseRate n r.octave r.tempo r.rest).map
          (fun res => res.map (fun evs => (r.output, r.counts.toNat) :: evs))

/-- The notes and rests of a song suffix, each as a
`(phase rate, tick count)` pair, in order. -/
def events (noteToPhaseRate : Nat → Nat) (octave tempo : Int) (l : List Char) :
    Option (Except MMLError (List (Nat × Nat))) :=
  eventsAux noteToPhaseRate (l.length + 1) octave tempo l

/-- The tick-by-tick phase rate sequence denoted by a list of events:
each event contributes `count` copies of its phase rate. -/
def ticksOfEvents (evs : List (Nat × Nat)) : List Nat :=
  evs.foldr (fun e acc => List.replicate e.2 e.1 ++ acc) []

/-- Total number of ticks of a list of events. -/
def totalTicks (evs : List (Nat × Nat)) : Nat :=
  evs.foldr (fun e acc => e.2 + acc) 0

/-! ### Lemmas about `lowerBoundIdx` -/

theorem lowerBoundIdx_le_length (l : List Nat) (v : Nat) :
    lowerBoundIdx l v ≤ l.length := by
  induction l with
  | nil => simp [lowerBoundIdx]
  | cons a l ih =>
    by_cases h : a < v <;> simp [lowerBoundIdx, h] <;> omega

theorem lowerBoundIdx_before (l : List Nat) (v : Nat) :
    ∀ j, j < lowerBoundIdx l v → l.getD j 0 < v := by
  induction l with
  | nil => simp [lowerBoundIdx]
  | cons a l ih =>
    intro j hj
    by_cases h : a < v
    · simp only [lowerBoundIdx, if_pos h] at hj
      cases j with
      | zero => simpa using h
      | succ j => simpa using ih j (by omega)
    · simp [lowerBoundIdx, h] at hj

theorem lowerBoundIdx_at (l : List Nat) (v : Nat)
    (h : lowerBoundIdx l v < l.length) : v ≤ l.getD (lowerBoundIdx l v) 0 := by
  induction l with
  | nil => simp [lowerBoundIdx] at h
  | cons a l ih =>
    by_cases ha : a < v
    · simp only [lowerBoundIdx, if_pos ha] at h ⊢
      simpa using ih (by simpa using h)
    · simp only [lowerBoundIdx, if_neg ha]
      simpa using Nat.le_of_not_lt ha

theorem topPhaseRateList_getD :
    ∀ j, j < 7 → (topPhaseRateList SAMPLE_RATE).dropLast.getD j 0 = topPhaseRate SAMPLE_RATE j := by
  decide

/-- C6: the thresholds `topPhaseRate[0..WAVETABLE_NUM_TABLES-1]` computed by
`SquareWavetable::Generate` are strictly increasing with level index; the
bank is a value that is never mutated after construction (in this functional
model, immutability is by construction), so the invariant holds thereafter. -/
theorem topPhaseRate_strictly_increasing :
    List.Pairwise (fun a b => a < b) (topPhaseRateList SAMPLE_RATE) := by
  decide

/-- C5: `GetTable` (the `selectLevel` operation) returns the index of the
lowest-numbered mip level whose threshold phase rate is at least the
requested rate — every level below the returned one has a threshold
strictly below the rate — clamped to the last level's index
(`WAVETABLE_NUM_TABLES - 1`); whenever the returned level is not the last
one, its threshold is at least the requested phase rate, i.e. a level with
threshold below the rate is returned only if it is the last level. -/
theorem getTable_lower_bound_spec (phaseRate : Nat) :
    GetTable SAMPLE_RATE phaseRate < WAVETABLE_NUM_TABLES ∧
    (∀ j, j < GetTable SAMPLE_RATE phaseRate → topPhaseRate SAMPLE_RATE j < phaseRate) ∧
    (GetTable SAMPLE_RATE phaseRate < WAVETABLE_NUM_TABLES - 1 →
      phaseRate ≤ topPhaseRate SAMPLE_RATE (GetTable SAMPLE_RATE phaseRate)) := by
  have hlen : (topPhaseRateList SAMPLE_RATE).dropLast.length = 7 := by decide
  have hle := lowerBoundIdx_le_length (topPhaseRateList SAMPLE_RATE).dropLast phaseRate
  rw [hlen] at hle
  refine ⟨?_, ?_, ?_⟩
  · show lowerBoundIdx _ _ < 8
    omega
  · intro j hj
    have hj7 : j < 7 := lt_of_lt_of_le hj hle
    have := lowerBoundIdx_before (topPhaseRateList SAMPLE_RATE).dropLast phaseRate j hj
    rwa [topPhaseRateList_getD j hj7] at this
  · intro hlt
    have h7 : GetTable SAMPLE_RATE phaseRate < 7 := hlt
    have h := lowerBoundIdx_at (topPhaseRateList SAMPLE_RATE).dropLast phaseRate (by rw [hlen]; exact h7)
    rw [topPhaseRateList_getD (lowerBoundIdx (topPhaseRateList SAMPLE_RATE).dropLast phaseRate) h7] at h
    exact h

/-- Witness for `getTable_lower_bound_spec` at the concrete phase rate
`3895662` (above threshold 0, below threshold 1): the selected level is 1. -/
theorem getTable_lower_bound_spec_witness :
    GetTable SAMPLE_RATE 3895662 < WAVETABLE_NUM_TABLES ∧
    (∀ j, j < GetTable SAMPLE_RATE 3895662 → topPhaseRate SAMPLE_RATE j < 3895662) ∧
    (GetTable SAMPLE_RATE 3895662 < WAVETABLE_NUM_TABLES - 1 →
      3895662 ≤ topPhaseRate SAMPLE_RATE (GetTable SAMPLE_RATE 3895662)) :=
  getTable_lower_bound_spec 3895662

/-! ### Concrete renders -/

/-! ### The render loop factors through the tick stream -/

theorem tickBlock_fst_length (lk : Nat → Nat → Int) (tableNum : Nat) :
    ∀ n phase phaseRate, (tickBlock lk tableNum n phase phaseRate).1.length = n := by
  intro n
  induction n with
  | zero => intro phase phaseRate; rfl
  | succ n ih => intro phase phaseRate; simp [tickBlock, ih]

theorem songLoop_eq_tickStream (lk : Nat → Nat → Int) (noteToPhaseRate : Nat → Nat) :
    ∀ fuel phase s,
      songLoop lk noteToPhaseRate fuel phase s =
        (tickStream noteToPhaseRate fuel s).map (fun r => r.map (renderTicks lk phase)) := by
  intro fuel
  induction fuel with
  | zero => intro phase s; rfl
  | succ fuel ih =>
    intro phase s
    by_cases hd : IsDone s
    · simp [songLoop, tickStream, hd, renderTicks, Except.map]
    · simp only [songLoop, tickStream, hd, Bool.false_eq_true, if_false]
      cases ht : Tick noteToPhaseRate s with
      | error e => rfl
      | ok p =>
        obtain ⟨rate, s'⟩ := p
        by_cases hrate : rate = 0
        · subst hrate
          simp only [if_pos rfl, ih]
          cases tickStream noteToPhaseRate fuel s' with
          | none => rfl
          | some r =>
            cases r with
            | error e => rfl
            | ok ts => rfl
        · simp only [if_neg hrate, ih]
          cases tickStream noteToPhaseRate fuel s' with
          | none => rfl
          | some r =>
            cases r with
            | error e => rfl
            | ok ts => simp [renderTicks, hrate, Except.map]

theorem renderTicks_zero_ticks (lk : Nat → Nat → Int) (phase : Nat) (n : Nat) :
    renderTicks lk phase (List.replicate n 0) = List.replicate (n * TICK_LENGTH) 0 := by
  induction n with
  | zero => simp [renderTicks]
  | succ n ih =>
    rw [List.replicate_succ]
    rw [show (n + 1) * TICK_LENGTH = TICK_LENGTH + n * TICK_LENGTH by ring]
    rw [List.replicate_add]
    simp [renderTicks, ih]


theorem ReadNumber_ok_props (rest : List Char) (min max : Int) (msg : String)
    (n : Int) (rest2 : List Char) (hmin : 0 ≤ min)
    (h : ReadNumber rest min max msg = .ok (n, rest2)) :
    min ≤ n ∧ n ≤ max ∧ rest2.length + 1 = rest.length ∧ rest2 <:+ rest := by
  by_cases hc : min ≤ ((rest.headD NUL).toNat : Int) - 48 ∧ ((rest.headD NUL).toNat : Int) - 48 ≤ max
  · simp only [ReadNumber, if_pos hc] at h
    injection h with h1
    injection h1 with hn hr
    subst hn; subst hr
    cases rest with
    | nil =>
      exfalso
      simp [NUL] at hc
      omega
    | cons a l =>
      refine ⟨hc.1, hc.2, by simp, ?_⟩
      simpa using List.tail_suffix (a :: l)
  · simp only [ReadNumber, if_neg hc] at h
    exact Except.noConfusion h

theorem applyModifier_props (pitch : Int) (rest : List Char) :
    (applyModifier pitch rest).2 <:+ rest ∧
      rest.length ≤ (applyModifier pitch rest).2.length + 1 := by
  unfold applyModifier
  split
  · exact ⟨by simpa using List.tail_suffix _, by simp⟩
  · exact ⟨by simpa using List.tail_suffix _, by simp⟩
  · exact ⟨by simpa using List.tail_suffix _, by simp⟩
  · exact ⟨List.suffix_rfl, by simp⟩

theorem lengthNumberToTickCount_bounds :
    ∀ m : Nat, m ≤ 9 → 1 ≤ lengthNumberToTickCount.getD m 0 ∧
      lengthNumberToTickCount.getD m 0 ≤ 32 := by
  decide

theorem counts_bounds (tempo n : Int) (h0 : 0 ≤ tempo) (h9 : tempo ≤ 9)
    (hn0 : 0 ≤ n) (hn9 : n ≤ 9) :
    1 ≤ (tempo + 1) * lengthNumberToTickCount.getD n.toNat 0 ∧
      (tempo + 1) * lengthNumberToTickCount.getD n.toNat 0 ≤ 320 := by
  have hm : n.toNat ≤ 9 := by omega
  obtain ⟨hl1, hl2⟩ := lengthNumberToTickCount_bounds n.toNat hm
  constructor
  · nlinarith
  · nlinarith

theorem scanStep_inl_spec (noteToPhaseRate : Nat → Nat) (octave tempo : Int)
    (l : List Char) (r : ScanRes)
    (h : scanStep noteToPhaseRate octave tempo l = .ok (.inl r)) :
    r.rest <:+ l ∧ (r.finished = true → r.output = 0) ∧
      (r.finished = false → r.rest.length + 2 ≤ l.length) ∧
      (0 ≤ tempo → tempo ≤ 9 → 0 ≤ r.tempo ∧ r.tempo ≤ 9 ∧
        (r.finished = false → 1 ≤ r.counts ∧ r.counts ≤ 320)) := by
  cases l with
  | nil =>
    replace h : (Except.ok (.inl ⟨octave, tempo, 0, 0, [], true⟩) :
        Except MMLError (ScanRes ⊕ Int × Int × List Char)) = .ok (.inl r) := h
    injection h with h
    injection h with h
    subst h
    exact ⟨List.suffix_rfl, fun _ => rfl, by simp, fun h1 h2 => ⟨h1, h2, by simp⟩⟩
  | cons c rest =>
    simp only [scanStep] at h
    split at h
    case isTrue hc =>
      injection h with h
      injection h with h
      subst h
      exact ⟨List.suffix_cons c rest, fun _ => rfl, by simp, fun h1 h2 => ⟨h1, h2, by simp⟩⟩
    case isFalse hc0 =>
    split at h
    case isTrue hc => exact Sum.noConfusion (Except.ok.inj h)
    case isFalse hc1 =>
    split at h
    case isTrue hc => exact Sum.noConfusion (Except.ok.inj h)
    case isFalse hc2 =>
    split at h
    case isTrue hc =>
      -- 'O' command
      split at h
      case h_1 e heq => exact Except.noConfusion h
      case h_2 p n rest2 heq => exact Sum.noConfusion (Except.ok.inj h)
    case isFalse hc3 =>
    split at h
    case isTrue hc =>
      -- 'T' command
      split at h
      case h_1 e heq => exact Except.noConfusion h
      case h_2 p n rest2 heq => exact Sum.noConfusion (Except.ok.inj h)
    case isFalse hc4 =>
    split at h
    case isTrue hc => exact Sum.noConfusion (Except.ok.inj h)
    case isFalse hc5 =>
    split at h
    case isTrue hc =>
      -- 'R' command
      split at h
      case h_1 e heq => exact Except.noConfusion h
      case h_2 p n rest2 heq =>
        replace h := Sum.inl.inj (Except.ok.inj h)
        subst h
        obtain ⟨hn0, hn9, hlen, hsuf⟩ := ReadNumber_ok_props rest 0 9 _ n rest2 (le_refl 0) heq
        refine ⟨hsuf.trans (List.suffix_cons c rest), by simp, ?_, ?_⟩
        · intro _
          simp only [List.length_cons]
          omega
        · intro h1 h2
          exact ⟨h1, h2, fun _ => counts_bounds tempo n h1 h2 hn0 hn9⟩
    case isFalse hc6 =>
    split at h
    case isTrue hAG =>
      -- note command
      split at h
      case h_1 e heq => exact Except.noConfusion h
      case h_2 p n rest2 heq =>
        split at h
        case h_1 e heq2 => exact Except.noConfusion h
        case h_2 p2 rate heq2 =>
          replace h := Sum.inl.inj (Except.ok.inj h)
          subst h
          obtain ⟨hn0, hn9, hlen, hsuf⟩ := ReadNumber_ok_props _ 0 9 _ n rest2 (le_refl 0) heq
          obtain ⟨hmsuf, hmlen⟩ :=
            applyModifier_props (letterToNoteNumber.getD (c.toNat - 65) 0) rest
          have hmle := hmsuf.length_le
          refine ⟨(hsuf.trans hmsuf).trans (List.suffix_cons c rest), by simp, ?_, ?_⟩
          · intro _
            simp only [List.length_cons]
            omega
          · intro h1 h2
            exact ⟨h1, h2, fun _ => counts_bounds tempo n h1 h2 hn0 hn9⟩
    case isFalse hc7 => exact Except.noConfusion h

theorem scanStep_inr_spec (noteToPhaseRate : Nat → Nat) (octave tempo : Int)
    (l : List Char) (octave2 tempo2 : Int) (rest2 : List Char)
    (h : scanStep noteToPhaseRate octave tempo l = .ok (.inr (octave2, tempo2, rest2))) :
    rest2 <:+ l ∧ rest2.length < l.length ∧
      (0 ≤ tempo → tempo ≤ 9 → 0 ≤ tempo2 ∧ tempo2 ≤ 9) := by
  cases l with
  | nil =>
    replace h : (Except.ok (.inl ⟨octave, tempo, 0, 0, [], true⟩) :
        Except MMLError (ScanRes ⊕ Int × Int × List Char)) = .ok (.inr (octave2, tempo2, rest2)) := h
    exact Sum.noConfusion (Except.ok.inj h)
  | cons c rest =>
    simp only [scanStep] at h
    split at h
    case isTrue hc => exact Sum.noConfusion (Except.ok.inj h)
    case isFalse hc0 =>
    split at h
    case isTrue hc =>
      replace h := Sum.inr.inj (Except.ok.inj h)
      obtain ⟨h1, h2, h3⟩ : _ ∧ tempo = tempo2 ∧ rest = rest2 := by
        simpa [Prod.ext_iff] using h
      subst h2; subst h3
      exact ⟨List.suffix_cons c rest, by simp, fun ha hb => ⟨ha, hb⟩⟩
    case isFalse hc1 =>
    split at h
    case isTrue hc =>
      replace h := Sum.inr.inj (Except.ok.inj h)
      obtain ⟨h1, h2, h3⟩ : _ ∧ tempo = tempo2 ∧ rest = rest2 := by
        simpa [Prod.ext_iff] using h
      subst h2; subst h3
      exact ⟨List.suffix_cons c rest, by simp, fun ha hb => ⟨ha, hb⟩⟩
    case isFalse hc2 =>
    split at h
    case isTrue hc =>
      -- 'O' command
      split at h
      case h_1 e heq => exact Except.noConfusion h
      case h_2 p n r2 heq =>
        replace h := Sum.inr.inj (Except.ok.inj h)
        obtain ⟨h1, h2, h3⟩ : n = octave2 ∧ tempo = tempo2 ∧ r2 = rest2 := by
          simpa [Prod.ext_iff] using h
        subst h2; subst h3
        obtain ⟨hn0, hn9, hlen, hsuf⟩ :=
          ReadNumber_ok_props rest 0 (NUM_OCTAVES - 1) _ n r2 (le_refl 0) heq
        refine ⟨hsuf.trans (List.suffix_cons c rest), ?_, fun ha hb => ⟨ha, hb⟩⟩
        simp only [List.length_cons]
        omega
    case isFalse hc3 =>
    split at h
    case isTrue hc =>
      -- 'T' command
      split at h
      case h_1 e heq => exact Except.noConfusion h
      case h_2 p n r2 heq =>
        replace h := Sum.inr.inj (Except.ok.inj h)
        obtain ⟨h1, h2, h3⟩ : octave = octave2 ∧ n = tempo2 ∧ r2 = rest2 := by
          simpa [Prod.ext_iff] using h
        subst h2; subst h3
        obtain ⟨hn0, hn9, hlen, hsuf⟩ :=
          ReadNumber_ok_props rest 0 9 _ n r2 (le_refl 0) heq
        refine ⟨hsuf.trans (List.suffix_cons c rest), ?_, fun _ _ => ⟨hn0, hn9⟩⟩
        simp only [List.length_cons]
        omega
    case isFalse hc4 =>
    split at h
    case isTrue hc =>
      replace h := Sum.inr.inj (Except.ok.inj h)
      obtain ⟨h1, h2, h3⟩ : _ ∧ tempo = tempo2 ∧ rest = rest2 := by
        simpa [Prod.ext_iff] using h
      subst h2; subst h3
      exact ⟨List.suffix_cons c rest, by simp, fun ha hb => ⟨ha, hb⟩⟩
    case isFalse hc5 =>
    split at h
    case isTrue hc =>
      split at h
      case h_1 e heq => exact Except.noConfusion h
      case h_2 p n r2 heq => exact Sum.noConfusion (Except.ok.inj h)
    case isFalse hc6 =>
    split at h
    case isTrue hAG =>
      split at h
      case h_1 e heq => exact Except.noConfusion h
      case h_2 p n r2 heq =>
        split at h
        case h_1 e heq2 => exact Except.noConfusion h
        case h_2 p2 rate heq2 => exact Sum.noConfusion (Except.ok.inj h)
    case isFalse hc7 => exact Except.noConfusion h

theorem scanLoop_ok_spec (noteToPhaseRate : Nat → Nat) :
    ∀ fuel (octave tempo : Int) (l : List Char) (r : ScanRes), l.length < fuel →
      scanLoop noteToPhaseRate fuel octave tempo l = .ok r →
      r.rest <:+ l ∧ (r.finished = true → r.output = 0) ∧
        (r.finished = false → r.rest.length + 2 ≤ l.length) ∧
        (0 ≤ tempo → tempo ≤ 9 → 0 ≤ r.tempo ∧ r.tempo ≤ 9 ∧
          (r.finished = false → 1 ≤ r.counts ∧ r.counts ≤ 320)) := by
  intro fuel
  induction fuel with
  | zero => intro octave tempo l r hlt; omega
  | succ fuel ih =>
    intro octave tempo l r hlt h
    simp only [scanLoop] at h
    cases hstep : scanStep noteToPhaseRate octave tempo l with
    | error e => rw [hstep] at h; exact Except.noConfusion h
    | ok v =>
      rw [hstep] at h
      cases v with
      | inl r2 =>
        replace h := Except.ok.inj h
        subst h
        exact scanStep_inl_spec noteToPhaseRate octave tempo l _ hstep
      | inr v2 =>
        obtain ⟨octave2, tempo2, rest2⟩ := v2
        obtain ⟨hsuf, hlen, htempo⟩ := scanStep_inr_spec noteToPhaseRate octave tempo l
          octave2 tempo2 rest2 hstep
        obtain ⟨h1, h2, h3, h4⟩ := ih octave2 tempo2 rest2 r (by omega) h
        refine ⟨h1.trans hsuf, h2, ?_, ?_⟩
        · intro hf
          have := h3 hf
          omega
        · intro ha hb
          obtain ⟨ha2, hb2⟩ := htempo ha hb
          exact h4 ha2 hb2

theorem tickScan_ok_spec (noteToPhaseRate : Nat → Nat) (octave tempo : Int)
    (l : List Char) (r : ScanRes)
    (h : tickScan noteToPhaseRate octave tempo l = .ok r) :
    r.rest <:+ l ∧ (r.finished = true → r.output = 0) ∧
      (r.finished = false → r.rest.length + 2 ≤ l.length) ∧
      (0 ≤ tempo → tempo ≤ 9 → 0 ≤ r.tempo ∧ r.tempo ≤ 9 ∧
        (r.finished = false → 1 ≤ r.counts ∧ r.counts ≤ 320)) :=
  scanLoop_ok_spec noteToPhaseRate (l.length + 1) octave tempo l r (by omega) h

theorem eventsAux_congr (noteToPhaseRate : Nat → Nat) :
    ∀ n m (octave tempo : Int) (l : List Char), l.length < n → l.length < m →
      eventsAux noteToPhaseRate n octave tempo l = eventsAux noteToPhaseRate m octave tempo l := by
  intro n
  induction n with
  | zero => intro m octave tempo l h1; omega
  | succ n ih =>
    intro m octave tempo l h1 h2
    cases m with
    | zero => omega
    | succ m =>
      simp only [eventsAux]
      cases hscan : tickScan noteToPhaseRate octave tempo l with
      | error e => rfl
      | ok r =>
        by_cases hfin : r.finished
        · simp [hfin]
        · simp only [Bool.not_eq_true] at hfin
          simp only [hfin, Bool.false_eq_true, if_false]
          obtain ⟨-, -, h3, -⟩ := tickScan_ok_spec noteToPhaseRate octave tempo l r hscan
          have hr := h3 hfin
          rw [ih m r.octave r.tempo r.rest (by omega) (by omega)]

theorem IsDone_false (s : MMLState) (h : 0 ≤ s.position) : IsDone s = false := by
  simp [IsDone]
  omega

theorem Tick_sustain (noteToPhaseRate : Nat → Nat) (s : MMLState)
    (h : s.counts - 1 > 0) :
    Tick noteToPhaseRate s = .ok (s.output, { s with counts := s.counts - 1 }) := by
  simp [Tick, h]

theorem Tick_parse (noteToPhaseRate : Nat → Nat) (s : MMLState) (r : ScanRes)
    (h1 : ¬s.counts - 1 > 0) (h2 : ¬s.position < 0)
    (hscan : tickScan noteToPhaseRate s.octave s.tempo (s.song.drop s.position.toNat) = .ok r) :
    Tick noteToPhaseRate s = .ok (r.output,
      { song := s.song
        position := if r.finished then -1 else (s.song.length : Int) - (r.rest.length : Int)
        octave := r.octave
        tempo := r.tempo
        counts := if r.finished then s.counts - 1 else r.counts
        output := r.output }) := by
  simp [Tick, h1, h2, hscan]

theorem Tick_scan_error (noteToPhaseRate : Nat → Nat) (s : MMLState) (e : MMLError)
    (h1 : ¬s.counts - 1 > 0) (h2 : ¬s.position < 0)
    (hscan : tickScan noteToPhaseRate s.octave s.tempo (s.song.drop s.position.toNat) = .error e) :
    Tick noteToPhaseRate s = .error e := by
  simp [Tick, h1, h2, hscan]

theorem tickStream_done (noteToPhaseRate : Nat → Nat) (fuel : Nat) (s : MMLState)
    (h : IsDone s = true) :
    tickStream noteToPhaseRate (fuel + 1) s = some (.ok []) := by
  simp [tickStream, h]

theorem tickStream_error (noteToPhaseRate : Nat → Nat) (fuel : Nat) (s : MMLState)
    (e : MMLError) (h1 : IsDone s = false) (h2 : Tick noteToPhaseRate s = .error e) :
    tickStream noteToPhaseRate (fuel + 1) s = some (.error e) := by
  simp [tickStream, h1, h2]

theorem tickStream_step (noteToPhaseRate : Nat → Nat) (fuel : Nat) (s s' : MMLState)
    (rate : Nat) (h1 : IsDone s = false) (h2 : Tick noteToPhaseRate s = .ok (rate, s')) :
    tickStream noteToPhaseRate (fuel + 1) s =
      (tickStream noteToPhaseRate fuel s').map (fun r => r.map (fun t => rate :: t)) := by
  simp [tickStream, h1, h2]

theorem ticksOfEvents_cons (e : Nat × Nat) (evs : List (Nat × Nat)) :
    ticksOfEvents (e :: evs) = List.replicate e.2 e.1 ++ ticksOfEvents evs := rfl

theorem totalTicks_cons (e : Nat × Nat) (evs : List (Nat × Nat)) :
    totalTicks (e :: evs) = e.2 + totalTicks evs := rfl

theorem ticksOfEvents_length (evs : List (Nat × Nat)) :
    (ticksOfEvents evs).length = totalTicks evs := by
  induction evs with
  | nil => rfl
  | cons e evs ih => simp [ticksOfEvents_cons, totalTicks_cons, ih]

theorem tickStream_of_events (noteToPhaseRate : Nat → Nat) :
    ∀ (fuel : Nat) (s : MMLState) (evs : List (Nat × Nat)),
      0 ≤ s.tempo → s.tempo ≤ 9 → 0 ≤ s.position →
      events noteToPhaseRate s.octave s.tempo (s.song.drop s.position.toNat) = some (.ok evs) →
      fuelFor s ≤ fuel →
      tickStream noteToPhaseRate fuel s =
        some (.ok (List.replicate (s.counts - 1).toNat s.output ++ (ticksOfEvents evs ++ [0]))) := by
  intro fuel
  induction fuel with
  | zero =>
    intro s evs h1 h2 h3 hev hf
    exfalso
    simp only [fuelFor] at hf
    omega
  | succ fuel ih =>
    intro s evs h1 h2 h3 hev hf
    have hdone := IsDone_false s h3
    by_cases hgt : s.counts - 1 > 0
    · -- the current note or rest is still being emitted
      rw [tickStream_step noteToPhaseRate fuel s _ s.output hdone
        (Tick_sustain noteToPhaseRate s hgt)]
      have hfuel2 : fuelFor { s with counts := s.counts - 1 } ≤ fuel := by
        simp only [fuelFor] at hf ⊢
        omega
      rw [ih { s with counts := s.counts - 1 } evs h1 h2 h3 hev hfuel2]
      have hc : (s.counts - 1).toNat = (s.counts - 1 - 1).toNat + 1 := by omega
      simp only [Option.map_some', Except.map, hc, List.replicate_succ, List.cons_append]
    · -- parse the next command
      have hnpos : ¬s.position < 0 := by omega
      have hlen_l : (s.song.drop s.position.toNat).length = s.song.length - s.position.toNat :=
        List.length_drop _ _
      rw [events] at hev
      cases hscan : tickScan noteToPhaseRate s.octave s.tempo (s.song.drop s.position.toNat) with
      | error e =>
        exfalso
        simp only [eventsAux, hscan] at hev
        simp at hev
      | ok r =>
        simp only [eventsAux, hscan] at hev
        obtain ⟨hsuf, hout0, hlen2, hinv⟩ :=
          tickScan_ok_spec noteToPhaseRate s.octave s.tempo _ r hscan
        by_cases hfin : r.finished = true
        · -- terminal sentinel consumed: one final silent tick
          rw [if_pos hfin] at hev
          replace hev : ([] : List (Nat × Nat)) = evs := by simpa using hev
          subst hev
          rw [tickStream_step noteToPhaseRate fuel s _ r.output hdone
            (Tick_parse noteToPhaseRate s r hgt hnpos hscan)]
          cases fuel with
          | zero =>
            exfalso
            simp only [fuelFor] at hf
            omega
          | succ f =>
            rw [tickStream_done noteToPhaseRate f _ (by simp [IsDone, hfin])]
            have hc0 : (s.counts - 1).toNat = 0 := by omega
            simp [hout0 hfin, hc0, ticksOfEvents, Except.map]
        · -- a note or rest was parsed
          replace hfin : r.finished = false := by
            cases hr : r.finished
            · rfl
            · exact absurd hr hfin
          rw [if_neg (by simp [hfin])] at hev
          cases haux : eventsAux noteToPhaseRate (s.song.drop s.position.toNat).length
              r.octave r.tempo r.rest with
          | none => rw [haux] at hev; simp at hev
          | some res =>
            rw [haux] at hev
            cases res with
            | error e => simp [Except.map] at hev
            | ok evs' =>
              replace hev : (r.output, r.counts.toNat) :: evs' = evs := by
                simpa [Except.map] using hev
              subst hev
              have hrlen := hlen2 hfin
              obtain ⟨ht0, ht9, hcnt⟩ := hinv h1 h2
              obtain ⟨hc1, hc320⟩ := hcnt hfin
              have hsufsong : r.rest <:+ s.song :=
                hsuf.trans (List.drop_suffix _ _)
              obtain ⟨u, hu⟩ := hsufsong
              have hul : u.length + r.rest.length = s.song.length := by
                rw [← hu]; simp
              have hposNat : s.position.toNat ≤ s.song.length := by omega
              have hevents2 : events noteToPhaseRate r.octave r.tempo r.rest =
                  some (.ok evs') := by
                rw [events]
                rw [eventsAux_congr noteToPhaseRate (r.rest.length + 1)
                  (s.song.drop s.position.toNat).length r.octave r.tempo r.rest
                  (by omega) (by omega)]
                exact haux
              rw [tickStream_step noteToPhaseRate fuel s _ r.output hdone
                (Tick_parse noteToPhaseRate s r hgt hnpos hscan)]
              rw [if_neg (by simp [hfin]), if_neg (by simp [hfin])]
              have htoNat : ((s.song.length : Int) - (r.rest.length : Int)).toNat = u.length := by
                omega
              have hdrop2 : s.song.drop ((s.song.length : Int) - (r.rest.length : Int)).toNat =
                  r.rest := by
                rw [htoNat, ← hu, List.drop_left]
              have hfs : fuelFor s =
                  s.counts.toNat + 322 * (s.song.length + 1 - s.position.toNat) + 2 := rfl
              rw [hfs] at hf
              have hfuel2 : fuelFor
                  { song := s.song
                    position := (s.song.length : Int) - (r.rest.length : Int)
                    octave := r.octave
                    tempo := r.tempo
                    counts := r.counts
                    output := r.output } ≤ fuel := by
                show r.counts.toNat +
                    322 * (s.song.length + 1 -
                      ((s.song.length : Int) - (r.rest.length : Int)).toNat) + 2 ≤ fuel
                omega
              rw [ih { song := s.song
                       position := (s.song.length : Int) - (r.rest.length : Int)
                       octave := r.octave
                       tempo := r.tempo
                       counts := r.counts
                       output := r.output } evs' ht0 ht9
                (by show (0 : Int) ≤ (s.song.length : Int) - (r.rest.length : Int); omega)
                (by show events noteToPhaseRate r.octave r.tempo
                      (s.song.drop ((s.song.length : Int) - (r.rest.length : Int)).toNat) =
                      some (.ok evs')
                    rw [hdrop2]
                    exact hevents2) hfuel2]
              have hc0 : (s.counts - 1).toNat = 0 := by omega
              have hcsucc : r.counts.toNat = (r.counts - 1).toNat + 1 := by omega
              simp only [Option.map_some', Except.map, hc0, List.replicate_zero,
                List.nil_append, ticksOfEvents_cons, hcsucc, List.replicate_succ,
                List.cons_append, List.append_assoc]

theorem songTicks_of_events (noteToPhaseRate : Nat → Nat) (songstr : List Char)
    (evs : List (Nat × Nat))
    (hev : events noteToPhaseRate 1 4 (Load songstr).song = some (.ok evs)) :
    songTicks noteToPhaseRate songstr = some (.ok (ticksOfEvents evs ++ [0])) := by
  rw [songTicks]
  have hmain := tickStream_of_events noteToPhaseRate (fuelFor (Load songstr)) (Load songstr) evs
    (by simp [Load]) (by simp [Load]) (by simp [Load])
    (by show events noteToPhaseRate (Load songstr).octave (Load songstr).tempo
          ((Load songstr).song.drop (Load songstr).position.toNat) = some (.ok evs)
        simpa [Load] using hev)
    (le_refl _)
  rw [hmain]
  simp [Load]

theorem render_of_events (lk : Nat → Nat → Int) (noteToPhaseRate : Nat → Nat)
    (songstr : List Char) (evs : List (Nat × Nat))
    (hev : events noteToPhaseRate 1 4 (Load songstr).song = some (.ok evs)) :
    GenerateSongSquareWave lk noteToPhaseRate songstr =
      some (.ok (renderTicks lk 0 (ticksOfEvents evs ++ [0]))) := by
  rw [GenerateSongSquareWave, songLoop_eq_tickStream]
  rw [show tickStream noteToPhaseRate (fuelFor (Load songstr)) (Load songstr) =
      songTicks noteToPhaseRate songstr from rfl]
  rw [songTicks_of_events noteToPhaseRate songstr evs hev]
  rfl

theorem renderTicks_length (lk : Nat → Nat → Int) :
    ∀ (ts : List Nat) (phase : Nat), (renderTicks lk phase ts).length = TICK_LENGTH * ts.length := by
  intro ts
  induction ts with
  | nil => intro phase; simp [renderTicks]
  | cons r ts ih =>
    intro phase
    by_cases hr : r = 0
    · simp [renderTicks, hr, ih]
      ring
    · simp [renderTicks, hr, ih, tickBlock_fst_length]
      ring

theorem renderTicks_append_zero (lk : Nat → Nat → Int) :
    ∀ (ts : List Nat) (phase : Nat),
      renderTicks lk phase (ts ++ [0]) = renderTicks lk phase ts ++ List.replicate TICK_LENGTH 0 := by
  intro ts
  induction ts with
  | nil => intro phase; simp [renderTicks]
  | cons r ts ih =>
    intro phase
    by_cases hr : r = 0
    · simp [renderTicks, hr, ih]
    · simp [renderTicks, hr, ih]

/-! ### Concrete renders: the failing pitch index and the syntax error -/

/-- C1 (failing input): rendering `"O2B#0"` — octave set to the top octave
`2`, note `B` (semitone 11) sharpened to semitone 12 — makes `Tick` access
`noteToPhaseRate[12 + 2 * 12] = noteToPhaseRate[36]`, one past the end of
the `NUM_OCTAVES * NOTES_PER_OCTAVE = 36`-entry table: the boundary nudge
compares the octave-relative pitch (at most 12) against 36 and never fires
at the top, so the claimed in-bounds property fails on this input. -/
theorem render_O2Bsharp_index_out_of_range (lk : Nat → Nat → Int)
    (noteToPhaseRate : Nat → Nat) :
    GenerateSongSquareWave lk noteToPhaseRate ("O2B#0".toList) =
      some (.error (.indexOutOfRange 36)) := by
  have h1 : IsDone (Load ("O2B#0".toList)) = false := rfl
  have h2 : Tick noteToPhaseRate (Load ("O2B#0".toList)) =
      .error (.indexOutOfRange 36) := rfl
  rw [GenerateSongSquareWave, songLoop_eq_tickStream]
  rw [show fuelFor (Load ("O2B#0".toList)) = 2255 + 1 from rfl]
  rw [tickStream_error noteToPhaseRate 2255 _ _ h1 h2]
  rfl

/-- C8: rendering the malformed notation `"Z4"` raises the syntax error
(`std::domain_error("Invalid character in song string")`) synchronously
during the first `Tick`'s parse; the error propagates straight out of
`GenerateSongSquareWave`, aborting all further ticks, and the render
produces no output samples (nothing had been rendered before the failure
point, and the propagated exception discards the local sample buffer). -/
theorem render_Z4_syntax_error (lk : Nat → Nat → Int)
    (noteToPhaseRate : Nat → Nat) :
    GenerateSongSquareWave lk noteToPhaseRate ("Z4".toList) =
      some (.error (.domainError "Invalid character in song string")) := by
  have h1 : IsDone (Load ("Z4".toList)) = false := rfl
  have h2 : Tick noteToPhaseRate (Load ("Z4".toList)) =
      .error (.domainError "Invalid character in song string") := rfl
  rw [GenerateSongSquareWave, songLoop_eq_tickStream]
  rw [show fuelFor (Load ("Z4".toList)) = 1289 + 1 from rfl]
  rw [tickStream_error noteToPhaseRate 1289 _ _ h1 h2]
  rfl

/-- C2 (amended): rendering `"R0"` produces `(defaultTempo + 1) *
lengthNumberToTickCount[0] = 5` ticks of silence for the rest, plus one
further tick of silence for the terminal sentinel (the render loop tests
`IsDone` before `Tick`, so the tick that consumes the sentinel is still
rendered): exactly `6 * TICK_LENGTH = 16200` zero-valued samples in total,
for every wavetable lookup and note table. -/
theorem render_R0_six_silent_ticks (lk : Nat → Nat → Int)
    (noteToPhaseRate : Nat → Nat) :
    GenerateSongSquareWave lk noteToPhaseRate ("R0".toList) =
      some (.ok (List.replicate (6 * TICK_LENGTH) 0)) := by
  have hev : events noteToPhaseRate 1 4 (Load ("R0".toList)).song =
      some (.ok [(0, 5)]) := rfl
  rw [render_of_events lk noteToPhaseRate _ _ hev]
  rw [show ticksOfEvents [(0, 5)] ++ [0] = List.replicate 6 0 from rfl]
  rw [renderTicks_zero_ticks]

/-- C2 (counterexample): rendering `"R0"` does not produce exactly
`(defaultTempo + 1) * lengthNumberToTickCount[0] * TICK_LENGTH = 5 * 2700`
zero samples and no more — the output has `6 * 2700` samples because the
terminal-sentinel tick is also rendered as silence. -/
theorem render_R0_not_five_ticks :
    GenerateSongSquareWave (fun _ _ => 0) (fun _ => 0) ("R0".toList) ≠
      some (.ok (List.replicate (5 * TICK_LENGTH) 0)) := by
  intro h
  have h6 : GenerateSongSquareWave (fun _ _ => 0) (fun _ => 0) ("R0".toList) =
      some (.ok (List.replicate (6 * TICK_LENGTH) 0)) := by
    rw [render_of_events (fun _ _ => 0) (fun _ => 0) ("R0".toList) [(0, 5)] rfl]
    rw [show ticksOfEvents [(0, 5)] ++ [0] = List.replicate 6 0 from rfl]
    rw [renderTicks_zero_ticks]
  rw [h6] at h
  have hlist : List.replicate (6 * TICK_LENGTH) (0 : Int) =
      List.replicate (5 * TICK_LENGTH) (0 : Int) := by
    injection h with h1
    injection h1
  have := congrArg List.length hlist
  rw [List.length_replicate, List.length_replicate,
    show TICK_LENGTH = 2700 from rfl] at this
  omega

/-! ### The remaining claims: totals, the example note, determinism -/

/-- C10: for every notation text whose commands all parse without error
(the empty text included), the rendered output is the samples of the
notated note/rest ticks followed by exactly one extra block of
`TICK_LENGTH` zero-valued samples: the tick in which the sequencer
consumes the terminal sentinel returns phase rate `0` and is still
rendered as silence, because the render loop tests `IsDone` before
calling `Tick`. -/
theorem render_ends_with_terminal_silence (lk : Nat → Nat → Int)
    (noteToPhaseRate : Nat → Nat) (songstr : List Char) (evs : List (Nat × Nat))
    (hev : events noteToPhaseRate 1 4 (Load songstr).song = some (.ok evs)) :
    GenerateSongSquareWave lk noteToPhaseRate songstr =
      some (.ok (renderTicks lk 0 (ticksOfEvents evs) ++ List.replicate TICK_LENGTH 0)) := by
  rw [render_of_events lk noteToPhaseRate songstr evs hev, renderTicks_append_zero]

/-- Witness for `render_ends_with_terminal_silence` at the empty notation
text: the output is exactly the one extra terminal block of silence. -/
theorem render_ends_with_terminal_silence_witness :
    GenerateSongSquareWave (fun _ _ => 0) (fun _ => 0) [] =
      some (.ok (renderTicks (fun _ _ => 0) 0 (ticksOfEvents []) ++
        List.replicate TICK_LENGTH 0)) :=
  render_ends_with_terminal_silence (fun _ _ => 0) (fun _ => 0) [] [] rfl

/-- C3 (amended): for every notation text whose commands all parse without
error, rendering terminates (the render loop finishes within its fuel,
returning `some`) and the total emitted sample count is `TICK_LENGTH`
times the sum of the `(tempo + 1) * lengthNumberToTickCount[digit]` tick
counts of the song's notes and rests, plus one extra `TICK_LENGTH` block
for the rendered terminal-sentinel tick. -/
theorem render_terminates_total_samples (lk : Nat → Nat → Int)
    (noteToPhaseRate : Nat → Nat) (songstr : List Char) (evs : List (Nat × Nat))
    (hev : events noteToPhaseRate 1 4 (Load songstr).song = some (.ok evs)) :
    ∃ out : List Int, GenerateSongSquareWave lk noteToPhaseRate songstr = some (.ok out) ∧
      out.length = TICK_LENGTH * totalTicks evs + TICK_LENGTH := by
  refine ⟨_, render_of_events lk noteToPhaseRate songstr evs hev, ?_⟩
  rw [renderTicks_length, List.length_append, ticksOfEvents_length]
  simp [Nat.mul_add]

/-- Witness for `render_terminates_total_samples` at the notation `"R0"`:
one rest event of 5 ticks, so the total is `2700 * 5 + 2700` samples. -/
theorem render_terminates_total_samples_witness :
    ∃ out : List Int,
      GenerateSongSquareWave (fun _ _ => 0) (fun _ => 0) ("R0".toList) = some (.ok out) ∧
      out.length = TICK_LENGTH * totalTicks [(0, 5)] + TICK_LENGTH :=
  render_terminates_total_samples (fun _ _ => 0) (fun _ => 0) ("R0".toList) [(0, 5)] rfl

/-- C3 (counterexample): on the empty notation text — no notes and no
rests, so the claimed total is `0` samples — the code still renders
`TICK_LENGTH = 2700` zero samples for the terminal-sentinel tick, so the
total emitted sample count does not equal the per-note/rest sum. -/
theorem render_empty_extra_tick :
    GenerateSongSquareWave (fun _ _ => 0) (fun _ => 0) [] =
      some (.ok (List.replicate TICK_LENGTH 0)) ∧
    events (fun _ => 0) 1 4 (Load []).song = some (.ok []) ∧
    (List.replicate TICK_LENGTH (0 : Int)).length ≠ TICK_LENGTH * totalTicks [] := by
  refine ⟨?_, rfl, ?_⟩
  · rw [render_of_events (fun _ _ => 0) (fun _ => 0) [] [] rfl]
    rw [show ticksOfEvents [] ++ [0] = List.replicate 1 0 from rfl]
    rw [renderTicks_zero_ticks]
    norm_num
  · rw [List.length_replicate]
    rw [show totalTicks [] = 0 from rfl]
    simp [TICK_LENGTH]

/-- C4: rendering `"T4 O0 C8"` makes the sequencer emit exactly
`(4 + 1) * lengthNumberToTickCount[8] = 120` consecutive ticks that all
carry the same non-zero phase rate `noteToPhaseRate[0]` — pitch C
(semitone 0) at octave 0 — followed only by the silent terminal tick, and
the renderer emits the fixed `TICK_LENGTH` sample count for each tick
(`TICK_LENGTH * 120` samples for the note plus `TICK_LENGTH` for the
terminal tick). -/
theorem render_T4O0C8_spec (lk : Nat → Nat → Int) (noteToPhaseRate : Nat → Nat)
    (hnz : noteToPhaseRate 0 ≠ 0) :
    songTicks noteToPhaseRate ("T4 O0 C8".toList) =
      some (.ok (List.replicate 120 (noteToPhaseRate 0) ++ [0])) ∧
    (∀ rate ∈ List.replicate 120 (noteToPhaseRate 0), rate = noteToPhaseRate 0 ∧ rate ≠ 0) ∧
    (∃ out : List Int, GenerateSongSquareWave lk noteToPhaseRate ("T4 O0 C8".toList) =
      some (.ok out) ∧ out.length = TICK_LENGTH * 120 + TICK_LENGTH) := by
  have hev : events noteToPhaseRate 1 4 (Load ("T4 O0 C8".toList)).song =
      some (.ok [(noteToPhaseRate 0, 120)]) := rfl
  refine ⟨?_, ?_, ?_⟩
  · rw [songTicks_of_events noteToPhaseRate _ _ hev]
    rfl
  · intro rate hrate
    rw [List.eq_of_mem_replicate hrate]
    exact ⟨rfl, hnz⟩
  · refine ⟨_, render_of_events lk noteToPhaseRate _ _ hev, ?_⟩
    rw [renderTicks_length, List.length_append, ticksOfEvents_length,
      show totalTicks [(noteToPhaseRate 0, 120)] = 120 from rfl,
      show ([0] : List Nat).length = 1 from rfl]
    ring

/-- Witness for `render_T4O0C8_spec` at the note table sending every index
to `1` (non-zero, as the real floating-point table is at index 0). -/
theorem render_T4O0C8_spec_witness :
    songTicks (fun _ => 1) ("T4 O0 C8".toList) =
      some (.ok (List.replicate 120 ((fun _ => 1) 0) ++ [0])) ∧
    (∀ rate ∈ List.replicate 120 ((fun _ => 1) 0),
      rate = (fun _ => 1) 0 ∧ rate ≠ 0) ∧
    (∃ out : List Int, GenerateSongSquareWave (fun _ _ => 0) (fun _ => 1) ("T4 O0 C8".toList) =
      some (.ok out) ∧ out.length = TICK_LENGTH * 120 + TICK_LENGTH) :=
  render_T4O0C8_spec (fun _ _ => 0) (fun _ => 1) (by decide)

/-- C9: rendering is deterministic — `GenerateSongSquareWave` constructs
its wavetable bank, player and phase accumulator locally and reads no
global mutable state, so it is a pure function of the notation text (and
the sample-rate-determined tables): two runs on equal inputs produce
identical sample output. -/
theorem render_deterministic (lk : Nat → Nat → Int) (noteToPhaseRate : Nat → Nat)
    (songstr1 songstr2 : List Char) (h : songstr1 = songstr2) :
    GenerateSongSquareWave lk noteToPhaseRate songstr1 =
      GenerateSongSquareWave lk noteToPhaseRate songstr2 := by
  rw [h]

/-- Witness for `render_deterministic`: two renders of `"R0"` agree. -/
theorem render_deterministic_witness :
    GenerateSongSquareWave (fun _ _ => 0) (fun _ => 0) ("R0".toList) =
      GenerateSongSquareWave (fun _ _ => 0) (fun _ => 0) ("R0".toList) :=
  render_deterministic (fun _ _ => 0) (fun _ => 0) ("R0".toList) ("R0".toList) rfl
